import Mathlib

/-!
Verification model of the lighthouse audit server (`dist/index.js`).

The development shallowly embeds the three server components the claims are
about:

* the `/nsa-audit` request handler (URL validation, Chrome launch, the
  lighthouse invocation, result-shape validation, report persistence, and the
  `finally` block that kills Chrome), modelled as a pure function from an
  oracle of external outcomes to an `HandlerOutcome`;
* the report store endpoints `GET /reports` (directory listing + sort
  comparator) and `GET /reports/:filename` (path join, existence check,
  `JSON.parse`);
* the JSON codec used by both: `stringifyJson` embeds
  `JSON.stringify(v, null, 2)` (two-space indentation, ECMA-262 string
  escaping) and `parseJson` embeds `JSON.parse` on the produced grammar.

Modelling conventions, stated once here:
* JavaScript values that can appear in a report are modelled by `Json`
  (pure JSON data: JS `undefined` never occurs inside a lighthouse `lhr`
  payload that gets serialised, and float formatting is out of scope, so
  numbers are modelled as integers).
* External effectful calls (`chrome-launcher.launch`, `lighthouse`,
  `writeFileSync`, `chrome.kill`, `Date`) are oracle fields: each request is
  some assignment of their outcomes, and theorems quantify over all of them.
* JS builtins used by the handler (`decodeURIComponent`, `new URL`) are
  parameters of the handler model; `decodeURIComponentAscii` below is a
  concrete executable model of the former, restricted to ASCII percent
  sequences, used for concrete evaluations.
-/

namespace LH

/-! ### The JSON value model

`Json`, `JsonList` and `JsonFields` are mutually inductive (rather than using
a nested `List`) so that every function on them is plain structural recursion
and therefore reduces inside the kernel, which lets concrete witnesses be
checked by `rfl`/`decide`. -/

mutual
inductive Json : Type where
  | null : Json
  | bool : Bool → Json
  | num : Int → Json
  | str : String → Json
  | arr : JsonList → Json
  | obj : JsonFields → Json

inductive JsonList : Type where
  | nil : JsonList
  | cons : Json → JsonList → JsonList

inductive JsonFields : Type where
  | nil : JsonFields
  | cons : String → Json → JsonFields → JsonFields
end

/-- Truthiness of a JS value under `!x` / `if (x)`: `null`, `false`, `0` and
`""` are falsy; objects and arrays are always truthy. (JS `undefined` is
modelled by an absent lookup, see `truthyOpt`.) -/
def Json.truthy : Json → Bool
  | .null => false
  | .bool b => b
  | .num n => n != 0
  | .str s => s != ""
  | .arr _ => true
  | .obj _ => true

/-- Property lookup in an object's field list (first binding wins). -/
def findField : JsonFields → String → Option Json
  | .nil, _ => none
  | .cons k v fs, key => if k = key then some v else findField fs key

/-- Model of `x[key]` on a JS value: a real binding on objects, `undefined` (here
`none`) on every non-object, matching JS property access on primitives. -/
def getField : Json → String → Option Json
  | .obj fs, key => findField fs key
  | _, _ => none

/-- Truthiness of `x[key]`: an absent property is `undefined`, hence falsy. -/
def truthyOpt : Option Json → Bool
  | none => false
  | some j => j.truthy

/-! ### The printer, JSON.stringify(v, null, 2)

The handler saves reports with `JSON.stringify(results.lhr, null, 2)`
(line 170 of `dist/index.js`).  `prettyVal` reproduces that output: two-space
indentation, `",\n"` between items, `": "` after keys, `[]`/`{}` compact when
empty, ECMA-262 `QuoteJSONString` escaping for strings, and decimal notation
for (integer) numbers. -/

/-- Two-space indentation at nesting depth `n`. -/
def ws2 (n : Nat) : List Char := List.replicate (2 * n) ' '

/-- Decimal digit character for `n < 10`. -/
def digitChar (n : Nat) : Char := Char.ofNat (48 + n)

/-- Hexadecimal digit character for `n < 16` (lowercase, as ECMA-262 emits). -/
def hexDigit (n : Nat) : Char := if n < 10 then Char.ofNat (48 + n) else Char.ofNat (87 + n)

/-- Decimal digits of `n`, least significant first; `fuel` only needs to
exceed the digit count (structural on `fuel` so the kernel can run it). -/
def natDigitsRev : Nat → Nat → List Char
  | 0, _ => []
  | f + 1, n => if n < 10 then [digitChar n] else digitChar (n % 10) :: natDigitsRev f (n / 10)

/-- Decimal digits of `n`, most significant first. -/
def natChars (n : Nat) : List Char := (natDigitsRev (n + 1) n).reverse

/-- The characters `String(i)` produces for an integer. -/
def intChars (i : Int) : List Char :=
  if i < 0 then '-' :: natChars i.natAbs else natChars i.natAbs

/-- ECMA-262 `QuoteJSONString` escaping of one character. -/
def escChar (c : Char) : List Char :=
  if c = '"' then ['\\', '"']
  else if c = '\\' then ['\\', '\\']
  else if c = '\n' then ['\\', 'n']
  else if c = '\t' then ['\\', 't']
  else if c = '\r' then ['\\', 'r']
  else if c.toNat = 8 then ['\\', 'b']
  else if c.toNat = 12 then ['\\', 'f']
  else if c.toNat < 32 then ['\\', 'u', '0', '0', hexDigit (c.toNat / 16), hexDigit (c.toNat % 16)]
  else [c]

/-- Escape a whole character run. -/
def escChars : List Char → List Char
  | [] => []
  | c :: cs => escChar c ++ escChars cs

/-- A JSON string literal: quotes around the escaped content. -/
def quoteChars (s : String) : List Char := '"' :: (escChars s.data ++ ['"'])

mutual
/-- The output of `JSON.stringify(·, null, 2)` at nesting depth `ind`. -/
def prettyVal (ind : Nat) : Json → List Char
  | .null => "null".data
  | .bool true => "true".data
  | .bool false => "false".data
  | .num n => intChars n
  | .str s => quoteChars s
  | .arr .nil => ['[', ']']
  | .arr (.cons x xs) =>
      '[' :: '\n' :: (ws2 (ind + 1) ++ (prettyVal (ind + 1) x ++ (prettyArrTail (ind + 1) xs
        ++ '\n' :: (ws2 ind ++ [']']))))
  | .obj .nil => ['\x7b', '\x7d']
  | .obj (.cons k v fs) =>
      '\x7b' :: '\n' :: (ws2 (ind + 1) ++ (quoteChars k ++ (':' :: ' ' ::
        (prettyVal (ind + 1) v ++ (prettyObjTail (ind + 1) fs
          ++ '\n' :: (ws2 ind ++ ['\x7d']))))))

/-- Second and later array items, each preceded by `",\n" ++ indent`. -/
def prettyArrTail (ind : Nat) : JsonList → List Char
  | .nil => []
  | .cons x xs => ',' :: '\n' :: (ws2 ind ++ (prettyVal ind x ++ prettyArrTail ind xs))

/-- Second and later object members, each preceded by `",\n" ++ indent`. -/
def prettyObjTail (ind : Nat) : JsonFields → List Char
  | .nil => []
  | .cons k v fs =>
      ',' :: '\n' :: (ws2 ind ++ (quoteChars k ++ (':' :: ' ' ::
        (prettyVal ind v ++ prettyObjTail ind fs))))
end

/-- The report file content the handler writes: `JSON.stringify(lhr, null, 2)`. -/
def stringifyJson (v : Json) : String := ⟨prettyVal 0 v⟩

end LH

/-! ### The parser, JSON.parse

`GET /reports/:filename` loads a report with
`JSON.parse(readFileSync(reportPath, 'utf8'))` (line 534).  `parseJson`
embeds `JSON.parse` as a recursive-descent parser over the character list,
with a fuel argument (structural, so the kernel can run it) capped by the
input length.  It covers the grammar `stringifyJson` produces — the one
divergence from full ECMA-262 `JSON.parse` is numeric literals, which are
integers here (fractions/exponents are float territory, out of scope). -/

namespace LH

/-- JSON insignificant whitespace. -/
def isWsCh (c : Char) : Bool := c = ' ' || c = '\n' || c = '\t' || c = '\r'

/-- Drop leading insignificant whitespace. -/
def skipWs : List Char → List Char
  | [] => []
  | c :: cs => if isWsCh c then skipWs cs else c :: cs

/-- Decimal digit test, phrased on code points so arithmetic lemmas apply. -/
def isDigitCh (c : Char) : Bool := 48 ≤ c.toNat && c.toNat ≤ 57

/-- Value of a decimal digit character. -/
def digVal (c : Char) : Nat := c.toNat - 48

/-- Consume a run of decimal digits, most significant first, into `acc`. -/
def goNum : Nat → List Char → Nat × List Char
  | acc, [] => (acc, [])
  | acc, c :: cs => if isDigitCh c then goNum (10 * acc + digVal c) cs else (acc, c :: cs)

/-- Parse an integer numeric literal: optional minus sign, then digits. -/
def parseNumber : List Char → Option (Int × List Char)
  | [] => none
  | c :: cs =>
    if c = '-' then
      match cs with
      | [] => none
      | d :: cs' =>
        if isDigitCh d then
          let p := goNum (digVal d) cs'
          some (-(p.1 : Int), p.2)
        else none
    else if isDigitCh c then
      let p := goNum (digVal c) cs
      some ((p.1 : Int), p.2)
    else none

/-- Value of a hexadecimal digit character, if it is one. -/
def hexValCh (c : Char) : Option Nat :=
  if 48 ≤ c.toNat ∧ c.toNat ≤ 57 then some (c.toNat - 48)
  else if 97 ≤ c.toNat ∧ c.toNat ≤ 102 then some (c.toNat - 87)
  else if 65 ≤ c.toNat ∧ c.toNat ≤ 70 then some (c.toNat - 55)
  else none

/-- Prepend a decoded character onto a string-body parse result. -/
def consStr (c : Char) : Option (List Char × List Char) → Option (List Char × List Char)
  | none => none
  | some (l, r) => some (c :: l, r)

/-- Parse a string body after the opening quote: escapes (named, and
`\uXXXX`) are decoded, a raw control character is a syntax error, the
closing quote ends the body. Structural on the input list. -/
def parseStrChars : List Char → Option (List Char × List Char)
  | [] => none
  | c :: cs =>
    if c = '"' then some ([], cs)
    else if c = '\\' then
      match cs with
      | [] => none
      | e :: cs' =>
        if e = '"' then consStr '"' (parseStrChars cs')
        else if e = '\\' then consStr '\\' (parseStrChars cs')
        else if e = '/' then consStr '/' (parseStrChars cs')
        else if e = 'n' then consStr '\n' (parseStrChars cs')
        else if e = 't' then consStr '\t' (parseStrChars cs')
        else if e = 'r' then consStr '\r' (parseStrChars cs')
        else if e = 'b' then consStr (Char.ofNat 8) (parseStrChars cs')
        else if e = 'f' then consStr (Char.ofNat 12) (parseStrChars cs')
        else if e = 'u' then
          match cs' with
          | a :: b :: c2 :: d :: cs'' =>
            match hexValCh a, hexValCh b, hexValCh c2, hexValCh d with
            | some va, some vb, some vc, some vd =>
                consStr (Char.ofNat (4096 * va + 256 * vb + 16 * vc + vd)) (parseStrChars cs'')
            | _, _, _, _ => none
          | _ => none
        else none
    else if c.toNat < 32 then none
    else consStr c (parseStrChars cs)

mutual
/-- Parse one JSON value (after optional whitespace). `fuel` bounds the
recursion into children; `parseJson` supplies more than enough. -/
def parseVal : Nat → List Char → Option (Json × List Char)
  | 0, _ => none
  | fuel + 1, cs =>
    match skipWs cs with
    | [] => none
    | c :: r =>
      if c = 'n' then
        match r with
        | 'u' :: 'l' :: 'l' :: r' => some (.null, r')
        | _ => none
      else if c = 't' then
        match r with
        | 'r' :: 'u' :: 'e' :: r' => some (.bool true, r')
        | _ => none
      else if c = 'f' then
        match r with
        | 'a' :: 'l' :: 's' :: 'e' :: r' => some (.bool false, r')
        | _ => none
      else if c = '"' then
        match parseStrChars r with
        | some (l, r') => some (.str ⟨l⟩, r')
        | none => none
      else if c = '[' then
        match skipWs r with
        | [] => none
        | c' :: r' =>
          if c' = ']' then some (.arr .nil, r')
          else
            match parseVal fuel (c' :: r') with
            | none => none
            | some (v, r2) =>
              match parseElems fuel r2 with
              | none => none
              | some (xs, r3) => some (.arr (.cons v xs), r3)
      else if c = '\x7b' then
        match skipWs r with
        | [] => none
        | c' :: r' =>
          if c' = '\x7d' then some (.obj .nil, r')
          else if c' = '"' then
            match parseStrChars r' with
            | none => none
            | some (k, r2) =>
              match skipWs r2 with
              | [] => none
              | c3 :: r3 =>
                if c3 = ':' then
                  match parseVal fuel r3 with
                  | none => none
                  | some (v, r4) =>
                    match parseFields fuel r4 with
                    | none => none
                    | some (fs, r5) => some (.obj (.cons ⟨k⟩ v fs), r5)
                else none
          else none
      else
        match parseNumber (c :: r) with
        | some (n, r') => some (.num n, r')
        | none => none

/-- Parse the items after the first one in an array: `,` then a value,
repeatedly, until `]`. -/
def parseElems : Nat → List Char → Option (JsonList × List Char)
  | 0, _ => none
  | fuel + 1, cs =>
    match skipWs cs with
    | [] => none
    | c :: r =>
      if c = ']' then some (.nil, r)
      else if c = ',' then
        match parseVal fuel r with
        | none => none
        | some (v, r2) =>
          match parseElems fuel r2 with
          | none => none
          | some (xs, r3) => some (.cons v xs, r3)
      else none

/-- Parse the members after the first one in an object: `,` then
`"key": value`, repeatedly, until the closing brace. -/
def parseFields : Nat → List Char → Option (JsonFields × List Char)
  | 0, _ => none
  | fuel + 1, cs =>
    match skipWs cs with
    | [] => none
    | c :: r =>
      if c = '\x7d' then some (.nil, r)
      else if c = ',' then
        match skipWs r with
        | [] => none
        | c2 :: r' =>
          if c2 = '"' then
            match parseStrChars r' with
            | none => none
            | some (k, r2) =>
              match skipWs r2 with
              | [] => none
              | c3 :: r3 =>
                if c3 = ':' then
                  match parseVal fuel r3 with
                  | none => none
                  | some (v, r4) =>
                    match parseFields fuel r4 with
                    | none => none
                    | some (fs, r5) => some (.cons ⟨k⟩ v fs, r5)
                else none
          else none
      else none
end

/-- The model of `JSON.parse`: parse one value and require only whitespace
after it. `none` models a thrown `SyntaxError`. -/
def parseJson (s : String) : Option Json :=
  match parseVal (s.data.length + 1) s.data with
  | none => none
  | some (v, r) =>
    match skipWs r with
    | [] => some v
    | _ => none

example : parseJson "\x7b \"a\": [1, -20, \"x\\n\"] \x7d"
    = some (.obj (.cons "a" (.arr (.cons (.num 1) (.cons (.num (-20))
        (.cons (.str "x\n") .nil)))) .nil)) := by rfl

example : parseJson "not json" = none := by rfl

example : parseJson (stringifyJson (.obj (.cons "k" (.arr (.cons (.num 42) .nil)) .nil)))
    = some (.obj (.cons "k" (.arr (.cons (.num 42) .nil)) .nil)) := by rfl

end LH

/-! ### Codec correctness: character and digit lemmas -/

namespace LH

theorem char_toNat_inj {a b : Char} (h : a.toNat = b.toNat) : a = b := by
  have ha := Char.ofNat_toNat a
  rw [← ha, h, Char.ofNat_toNat]

theorem char_toNat_ofNat {m : Nat} (h : m < 55296) : (Char.ofNat m).toNat = m := by
  unfold Char.ofNat
  rw [dif_pos (Or.inl h)]
  rfl

theorem ne_of_toNat_ne {a b : Char} (h : a.toNat ≠ b.toNat) : a ≠ b :=
  fun e => h (by rw [e])

theorem isWsCh_cases {c : Char} (h : isWsCh c = true) :
    c.toNat = 32 ∨ c.toNat = 10 ∨ c.toNat = 9 ∨ c.toNat = 13 := by
  simp only [isWsCh, Bool.or_eq_true, decide_eq_true_eq] at h
  obtain ((h | h) | h) | h := h <;> subst h <;> simp

theorem digit_bounds {c : Char} (h : isDigitCh c = true) : 48 ≤ c.toNat ∧ c.toNat ≤ 57 := by
  simp only [isDigitCh, Bool.and_eq_true, decide_eq_true_eq] at h
  exact h

theorem not_ws_of_digit {c : Char} (h : isDigitCh c = true) : isWsCh c = false := by
  obtain ⟨h1, h2⟩ := digit_bounds h
  by_cases hw : isWsCh c = true
  · rcases isWsCh_cases hw with e | e | e | e <;> omega
  · simpa using hw

theorem ne_char_of_bounds {c : Char} (h1 : 48 ≤ c.toNat) (h2 : c.toNat ≤ 57)
    (d : Char) (hd : d.toNat < 48 ∨ 57 < d.toNat) : c ≠ d :=
  ne_of_toNat_ne (by omega)

theorem skipWs_cons_ws {c : Char} (h : isWsCh c = true) (cs : List Char) :
    skipWs (c :: cs) = skipWs cs := by
  simp [skipWs, h]

theorem skipWs_cons_not {c : Char} (h : isWsCh c = false) (cs : List Char) :
    skipWs (c :: cs) = c :: cs := by
  simp [skipWs, h]

theorem skipWs_replicate (n : Nat) (cs : List Char) :
    skipWs (List.replicate n ' ' ++ cs) = skipWs cs := by
  induction n with
  | zero => rfl
  | succ k ih =>
      rw [List.replicate_succ, List.cons_append, skipWs_cons_ws (by decide)]
      exact ih

theorem skipWs_ws2 (n : Nat) (cs : List Char) : skipWs (ws2 n ++ cs) = skipWs cs :=
  skipWs_replicate _ _

theorem skipWs_nl (cs : List Char) : skipWs ('\n' :: cs) = skipWs cs :=
  skipWs_cons_ws (by decide) cs

theorem hexVal_hexDigit : ∀ k, k < 16 → hexValCh (hexDigit k) = some k := by decide

theorem digitChar_toNat {k : Nat} (h : k < 10) : (digitChar k).toNat = 48 + k :=
  char_toNat_ofNat (by omega)

theorem isDigitCh_digitChar {k : Nat} (h : k < 10) : isDigitCh (digitChar k) = true := by
  simp only [isDigitCh, digitChar_toNat h, Bool.and_eq_true, decide_eq_true_eq]
  omega

theorem digVal_digitChar {k : Nat} (h : k < 10) : digVal (digitChar k) = k := by
  simp [digVal, digitChar_toNat h]

/-! ### Codec correctness: the decimal number codec -/

theorem natDigitsRev_eq {n : Nat} (f g : Nat) (hf : n < f) (hg : n < g) :
    natDigitsRev f n = natDigitsRev g n := by
  induction n using Nat.strong_induction_on generalizing f g with
  | _ n ih =>
    match f, g with
    | f' + 1, g' + 1 =>
      by_cases h : n < 10
      · simp [natDigitsRev, h]
      · simp only [natDigitsRev, if_neg h]
        have hd : n / 10 < n := Nat.div_lt_self (by omega) (by omega)
        rw [ih (n / 10) hd f' g' (by omega) (by omega)]

theorem natChars_lt10 {n : Nat} (h : n < 10) : natChars n = [digitChar n] := by
  simp [natChars, natDigitsRev, h]

theorem natChars_ge10 {n : Nat} (h : 10 ≤ n) :
    natChars n = natChars (n / 10) ++ [digitChar (n % 10)] := by
  have hd : n / 10 < n := Nat.div_lt_self (by omega) (by omega)
  have h1 : natDigitsRev (n + 1) n = digitChar (n % 10) :: natDigitsRev n (n / 10) := by
    simp only [natDigitsRev]
    rw [if_neg (by omega)]
  unfold natChars
  rw [h1, List.reverse_cons,
    natDigitsRev_eq n (n / 10 + 1) (show n / 10 < n by omega) (by omega)]

theorem natChars_ne_nil (n : Nat) : natChars n ≠ [] := by
  by_cases h : n < 10
  · rw [natChars_lt10 h]; simp
  · rw [natChars_ge10 (by omega)]; simp

theorem natChars_digits (n : Nat) : ∀ c ∈ natChars n, isDigitCh c = true := by
  induction n using Nat.strong_induction_on with
  | _ n ih =>
    by_cases h : n < 10
    · rw [natChars_lt10 h]
      intro c hc
      rw [List.mem_singleton] at hc
      subst hc
      exact isDigitCh_digitChar h
    · rw [natChars_ge10 (by omega)]
      intro c hc
      rw [List.mem_append] at hc
      rcases hc with hc | hc
      · exact ih (n / 10) (Nat.div_lt_self (by omega) (by omega)) c hc
      · rw [List.mem_singleton] at hc
        subst hc
        exact isDigitCh_digitChar (Nat.mod_lt _ (by omega))

theorem natChars_head (n : Nat) :
    ∃ c t, natChars n = c :: t ∧ isDigitCh c = true := by
  match hnc : natChars n with
  | [] => exact absurd hnc (natChars_ne_nil n)
  | c :: t =>
    refine ⟨c, t, rfl, natChars_digits n c ?_⟩
    rw [hnc]
    exact List.mem_cons_self c t

theorem goNum_natChars (n : Nat) : ∀ (acc : Nat) (rest : List Char),
    goNum acc (natChars n ++ rest)
      = goNum (acc * 10 ^ (natChars n).length + n) rest := by
  induction n using Nat.strong_induction_on with
  | _ n ih =>
    intro acc rest
    by_cases h : n < 10
    · rw [natChars_lt10 h]
      simp only [List.cons_append, List.nil_append, goNum,
        if_pos (isDigitCh_digitChar h), digVal_digitChar h, List.length_singleton]
      congr 1
      ring
    · rw [natChars_ge10 (by omega), List.append_assoc,
        ih (n / 10) (Nat.div_lt_self (by omega) (by omega))]
      have hm : n % 10 < 10 := Nat.mod_lt _ (by omega)
      simp only [List.cons_append, List.nil_append, goNum,
        if_pos (isDigitCh_digitChar hm), digVal_digitChar hm, List.length_append,
        List.length_singleton]
      have hdm : 10 * (n / 10) + n % 10 = n := Nat.div_add_mod n 10
      have hpow : 10 ^ ((natChars (n / 10)).length + 1)
          = 10 ^ (natChars (n / 10)).length * 10 := pow_succ 10 _
      rw [hpow]
      congr 1
      have hdm2 : 10 * (n / 10) + n % 10 = n := Nat.div_add_mod n 10
      ring_nf
      omega

/-- A remainder that cannot extend a numeric literal: empty or not
digit-headed. Every delimiter the printer emits after a number (`,`, `\n`,
`]`, a brace, end of input) qualifies. -/
def restOk : List Char → Bool
  | [] => true
  | c :: _ => !isDigitCh c

theorem goNum_stop {rest : List Char} (h : restOk rest = true) (acc : Nat) :
    goNum acc rest = (acc, rest) := by
  match rest with
  | [] => rfl
  | c :: t =>
    simp only [restOk, Bool.not_eq_true'] at h
    simp [goNum, h]

theorem parseNumber_natChars {n : Nat} {rest : List Char} (h : restOk rest = true) :
    parseNumber (natChars n ++ rest) = some ((n : Int), rest) := by
  obtain ⟨c, t, hct, hcd⟩ := natChars_head n
  obtain ⟨hb1, hb2⟩ := digit_bounds hcd
  have hkey : goNum (digVal c) (t ++ rest) = ((n : Nat), rest) := by
    have h0 : goNum 0 ((c :: t) ++ rest) = goNum (digVal c) (t ++ rest) := by
      simp [goNum, hcd]
    rw [← h0, ← hct, goNum_natChars, goNum_stop h]
    simp
  rw [hct, List.cons_append]
  simp only [parseNumber, if_neg (ne_char_of_bounds hb1 hb2 '-' (by decide)), if_pos hcd, hkey]

theorem parseNumber_intChars {i : Int} {rest : List Char} (h : restOk rest = true) :
    parseNumber (intChars i ++ rest) = some (i, rest) := by
  by_cases hi : i < 0
  · rw [intChars, if_pos hi, List.cons_append]
    obtain ⟨c, t, hct, hcd⟩ := natChars_head i.natAbs
    have hkey : goNum (digVal c) (t ++ rest) = (i.natAbs, rest) := by
      have h0 : goNum 0 ((c :: t) ++ rest) = goNum (digVal c) (t ++ rest) := by
        simp [goNum, hcd]
      rw [← h0, ← hct, goNum_natChars, goNum_stop h]
      simp
    rw [hct, List.cons_append]
    simp only [parseNumber, if_pos hcd, hkey, if_true, Option.some.injEq, Prod.mk.injEq]
    refine ⟨?_, trivial⟩
    omega
  · rw [intChars, if_neg hi, parseNumber_natChars h]
    congr 2
    omega

/-! ### Codec correctness: the string codec -/

theorem parseStr_escChar (c : Char) (rest : List Char) :
    parseStrChars (escChar c ++ rest) = consStr c (parseStrChars rest) := by
  by_cases h1 : c = '"'
  · subst h1
    rw [show escChar '"' = ['\\', '"'] from rfl, List.cons_append, List.cons_append,
      List.nil_append, parseStrChars.eq_def]
    simp
  by_cases h2 : c = '\\'
  · subst h2
    rw [show escChar '\\' = ['\\', '\\'] from by simp [escChar], List.cons_append,
      List.cons_append, List.nil_append, parseStrChars.eq_def]
    simp
  by_cases h3 : c = '\n'
  · subst h3
    rw [show escChar '\n' = ['\\', 'n'] from by simp [escChar], List.cons_append,
      List.cons_append, List.nil_append, parseStrChars.eq_def]
    simp
  by_cases h4 : c = '\t'
  · subst h4
    rw [show escChar '\t' = ['\\', 't'] from by simp [escChar], List.cons_append,
      List.cons_append, List.nil_append, parseStrChars.eq_def]
    simp
  by_cases h5 : c = '\r'
  · subst h5
    rw [show escChar '\r' = ['\\', 'r'] from by simp [escChar], List.cons_append,
      List.cons_append, List.nil_append, parseStrChars.eq_def]
    simp
  by_cases h6 : c.toNat = 8
  · have hc : Char.ofNat 8 = c := by
      rw [← h6, Char.ofNat_toNat]
    rw [escChar, if_neg h1, if_neg h2, if_neg h3, if_neg h4, if_neg h5, if_pos h6,
      List.cons_append, List.cons_append, List.nil_append, parseStrChars.eq_def]
    simp
    rw [hc]
  by_cases h7 : c.toNat = 12
  · have hc : Char.ofNat 12 = c := by
      rw [← h7, Char.ofNat_toNat]
    rw [escChar, if_neg h1, if_neg h2, if_neg h3, if_neg h4, if_neg h5, if_neg h6, if_pos h7,
      List.cons_append, List.cons_append, List.nil_append, parseStrChars.eq_def]
    simp
    rw [hc]
  by_cases h8 : c.toNat < 32
  · rw [escChar, if_neg h1, if_neg h2, if_neg h3, if_neg h4, if_neg h5, if_neg h6, if_neg h7,
      if_pos h8]
    have hdiv : c.toNat / 16 < 16 := by omega
    have hmod : c.toNat % 16 < 16 := Nat.mod_lt _ (by omega)
    have h00 : hexValCh '0' = some 0 := by decide
    simp only [List.cons_append, List.nil_append]
    rw [parseStrChars.eq_def]
    simp only [h00, hexVal_hexDigit _ hdiv, hexVal_hexDigit _ hmod]
    simp
    have harith : 16 * (c.toNat / 16) + c.toNat % 16 = c.toNat := by omega
    rw [harith, Char.ofNat_toNat]
  · rw [escChar, if_neg h1, if_neg h2, if_neg h3, if_neg h4, if_neg h5, if_neg h6, if_neg h7,
      if_neg h8, List.cons_append, List.nil_append, parseStrChars.eq_def]
    simp only [if_neg h1, if_neg h2, if_neg h8]

theorem parseStr_escChars (cs : List Char) : ∀ rest : List Char,
    parseStrChars (escChars cs ++ '"' :: rest) = some (cs, rest) := by
  induction cs with
  | nil =>
      intro rest
      simp only [escChars, List.nil_append]
      rw [parseStrChars.eq_def]
      simp
  | cons c t ih =>
      intro rest
      simp only [escChars, List.append_assoc]
      rw [parseStr_escChar, ih]
      rfl

end LH

/-! ### Codec correctness: sizes, head shapes, whitespace congruence -/

namespace LH

mutual
/-- Node count of a value; the parser needs at most this much fuel. -/
def sizeJ : Json → Nat
  | .null => 1
  | .bool _ => 1
  | .num _ => 1
  | .str _ => 1
  | .arr xs => 1 + sizeL xs
  | .obj fs => 1 + sizeF fs

/-- Node count of an array tail. -/
def sizeL : JsonList → Nat
  | .nil => 0
  | .cons x xs => 1 + sizeJ x + sizeL xs

/-- Node count of an object tail. -/
def sizeF : JsonFields → Nat
  | .nil => 0
  | .cons _ v fs => 1 + sizeJ v + sizeF fs
end

theorem sizeJ_pos (v : Json) : 1 ≤ sizeJ v := by
  cases v <;> simp [sizeJ]

/-- Every printed value starts with a non-whitespace character that is not a
closing bracket, closing brace or comma (so the parser's branch on the head
of an item list is determined). -/
theorem prettyVal_head (ind : Nat) (v : Json) :
    ∃ c t, prettyVal ind v = c :: t ∧ c ≠ ']' ∧ c ≠ '\x7d' ∧ isWsCh c = false := by
  cases v with
  | num n =>
    by_cases hn : n < 0
    · refine ⟨'-', natChars n.natAbs, by simp [prettyVal, intChars, hn], ?_, ?_, ?_⟩ <;> decide
    · obtain ⟨c, t, hct, hcd⟩ := natChars_head n.natAbs
      obtain ⟨hb1, hb2⟩ := digit_bounds hcd
      refine ⟨c, t, by simp [prettyVal, intChars, hn, hct], ?_, ?_, not_ws_of_digit hcd⟩
      · exact ne_char_of_bounds hb1 hb2 ']' (by decide)
      · exact ne_char_of_bounds hb1 hb2 '\x7d' (by decide)
  | null => refine ⟨'n', _, rfl, ?_, ?_, ?_⟩ <;> decide
  | bool b =>
    cases b with
    | false => refine ⟨'f', _, rfl, ?_, ?_, ?_⟩ <;> decide
    | true => refine ⟨'t', _, rfl, ?_, ?_, ?_⟩ <;> decide
  | str s => refine ⟨'"', _, rfl, ?_, ?_, ?_⟩ <;> decide
  | arr xs =>
    cases xs with
    | nil => refine ⟨'[', _, rfl, ?_, ?_, ?_⟩ <;> decide
    | cons x t => refine ⟨'[', _, rfl, ?_, ?_, ?_⟩ <;> decide
  | obj fs =>
    cases fs with
    | nil => refine ⟨'\x7b', _, rfl, ?_, ?_, ?_⟩ <;> decide
    | cons k w t => refine ⟨'\x7b', _, rfl, ?_, ?_, ?_⟩ <;> decide

/-- The remainder following a printed item inside an array or object tail
never starts with a digit. -/
theorem restOk_arrTail (ind : Nat) (xs : JsonList) (z : List Char) :
    restOk (prettyArrTail ind xs ++ '\n' :: z) = true := by
  cases xs <;> rfl

theorem restOk_objTail (ind : Nat) (fs : JsonFields) (z : List Char) :
    restOk (prettyObjTail ind fs ++ '\n' :: z) = true := by
  cases fs <;> rfl

/-- Lemma: `parseVal` only looks at its input through `skipWs`, so inputs with the
same whitespace-stripped form parse identically. -/
theorem parseVal_skip_congr {x y : List Char} (h : skipWs x = skipWs y) :
    ∀ fuel, parseVal fuel x = parseVal fuel y := by
  intro fuel
  cases fuel with
  | zero => rfl
  | succ f =>
    simp only [parseVal]
    rw [h]

end LH

namespace LH

/-- A non-whitespace head that matches none of the structural openers sends
`parseVal` to the number branch. -/
theorem parseVal_digitHead (f : Nat) (c : Char) (t : List Char)
    (hws : isWsCh c = false) (hn : c ≠ 'n') (ht : c ≠ 't') (hf : c ≠ 'f') (hq : c ≠ '"')
    (hbk : c ≠ '[') (hbc : c ≠ '\x7b') :
    parseVal (f + 1) (c :: t)
      = (match parseNumber (c :: t) with
         | some (n, r') => some (.num n, r')
         | none => none) := by
  simp only [parseVal]
  rw [skipWs_cons_not hws]
  simp only [if_neg hn, if_neg ht, if_neg hf, if_neg hq, if_neg hbk, if_neg hbc]

end LH

namespace LH

/-- The codec round-trip, by strong induction on the parser's fuel: parsing
the printer's output at any indentation recovers the value exactly, for any
fuel at least the node count. The three conjuncts track the three mutual
parsing functions. -/
theorem rtAll : ∀ fuel : Nat,
    (∀ (v : Json) (ind : Nat) (rest : List Char), sizeJ v ≤ fuel → restOk rest = true →
      parseVal fuel (prettyVal ind v ++ rest) = some (v, rest)) ∧
    (∀ (xs : JsonList) (ind jnd : Nat) (rest : List Char), sizeL xs < fuel →
      parseElems fuel (prettyArrTail ind xs ++ '\n' :: (ws2 jnd ++ ']' :: rest))
        = some (xs, rest)) ∧
    (∀ (fs : JsonFields) (ind jnd : Nat) (rest : List Char), sizeF fs < fuel →
      parseFields fuel (prettyObjTail ind fs ++ '\n' :: (ws2 jnd ++ '\x7d' :: rest))
        = some (fs, rest)) := by
  intro fuel
  induction fuel using Nat.strong_induction_on with
  | _ fuel ih =>
    refine ⟨?_, ?_, ?_⟩
    · intro v ind rest hsz hrest
      cases fuel with
      | zero => exact absurd (le_trans (sizeJ_pos v) hsz) (by omega)
      | succ f =>
        cases v with
        | null => rfl
        | bool b => cases b <;> rfl
        | num n =>
          by_cases hn : n < 0
          · simp only [prettyVal, intChars, if_pos hn, List.cons_append]
            rw [parseVal_digitHead f '-' _ (by decide) (by decide) (by decide) (by decide)
              (by decide) (by decide) (by decide)]
            have harg : '-' :: (natChars n.natAbs ++ rest) = intChars n ++ rest := by
              simp [intChars, hn]
            rw [harg, parseNumber_intChars hrest]
          · obtain ⟨c, t, hct, hcd⟩ := natChars_head n.natAbs
            obtain ⟨hb1, hb2⟩ := digit_bounds hcd
            simp only [prettyVal, intChars, if_neg hn, hct, List.cons_append]
            rw [parseVal_digitHead f c _ (not_ws_of_digit hcd)
              (ne_char_of_bounds hb1 hb2 'n' (by decide))
              (ne_char_of_bounds hb1 hb2 't' (by decide))
              (ne_char_of_bounds hb1 hb2 'f' (by decide))
              (ne_char_of_bounds hb1 hb2 '"' (by decide))
              (ne_char_of_bounds hb1 hb2 '[' (by decide))
              (ne_char_of_bounds hb1 hb2 '\x7b' (by decide))]
            have harg : c :: (t ++ rest) = intChars n ++ rest := by
              simp [intChars, hn, hct]
            rw [harg, parseNumber_intChars hrest]
        | str s =>
          simp only [prettyVal, quoteChars, List.cons_append, List.append_assoc,
            List.singleton_append]
          simp only [parseVal]
          rw [skipWs_cons_not (by decide)]
          simp only [if_neg (by decide : ¬('"' : Char) = 'n'),
            if_neg (by decide : ¬('"' : Char) = 't'), if_neg (by decide : ¬('"' : Char) = 'f'),
            if_pos (rfl : ('"' : Char) = '"'), parseStr_escChars]
          rfl
        | arr xs =>
          cases xs with
          | nil => rfl
          | cons x xs =>
            simp only [sizeJ, sizeL] at hsz
            have hx : sizeJ x ≤ f := by
              have := sizeJ_pos x
              omega
            have hxs : sizeL xs < f := by
              have := sizeJ_pos x
              omega
            obtain ⟨c, t, hct, hc93, hc125, hcws⟩ := prettyVal_head (ind + 1) x
            simp only [prettyVal, List.cons_append, List.append_assoc, List.singleton_append,
              List.nil_append]
            simp only [parseVal]
            rw [skipWs_cons_not (by decide)]
            simp only [if_neg (by decide : ¬('[' : Char) = 'n'),
              if_neg (by decide : ¬('[' : Char) = 't'), if_neg (by decide : ¬('[' : Char) = 'f'),
              if_neg (by decide : ¬('[' : Char) = '"'), if_pos (rfl : ('[' : Char) = '[')]
            rw [skipWs_nl, skipWs_ws2, hct, List.cons_append, skipWs_cons_not hcws]
            simp only [if_neg hc93]
            rw [← List.cons_append, ← hct,
              (ih f (by omega)).1 x (ind + 1) _ hx (restOk_arrTail _ _ _)]
            simp only [if_true]
            rw [(ih f (by omega)).2.1 xs (ind + 1) ind rest hxs]
        | obj fs =>
          cases fs with
          | nil => rfl
          | cons k v gs =>
            simp only [sizeJ, sizeF] at hsz
            have hv : sizeJ v ≤ f := by
              have := sizeJ_pos v
              omega
            have hgs : sizeF gs < f := by
              have := sizeJ_pos v
              omega
            simp only [prettyVal, quoteChars, List.cons_append, List.append_assoc,
              List.singleton_append, List.nil_append]
            simp only [parseVal]
            rw [skipWs_cons_not (by decide)]
            simp only [if_neg (by decide : ¬('\x7b' : Char) = 'n'),
              if_neg (by decide : ¬('\x7b' : Char) = 't'),
              if_neg (by decide : ¬('\x7b' : Char) = 'f'),
              if_neg (by decide : ¬('\x7b' : Char) = '"'),
              if_neg (by decide : ¬('\x7b' : Char) = '['),
              if_pos (rfl : ('\x7b' : Char) = '\x7b')]
            rw [skipWs_nl, skipWs_ws2, skipWs_cons_not (by decide)]
            simp only [if_neg (by decide : ¬('"' : Char) = '\x7d'),
              if_pos (rfl : ('"' : Char) = '"'), parseStr_escChars]
            rw [skipWs_cons_not (by decide)]
            simp only [if_pos (rfl : (':' : Char) = ':')]
            rw [parseVal_skip_congr (skipWs_cons_ws (by decide) _) f,
              (ih f (by omega)).1 v (ind + 1) _ hv (restOk_objTail _ _ _)]
            simp only [if_true]
            rw [(ih f (by omega)).2.2 gs (ind + 1) ind rest hgs]
    · intro xs ind jnd rest hsz
      cases fuel with
      | zero => omega
      | succ f =>
        cases xs with
        | nil =>
          simp only [prettyArrTail, List.nil_append]
          simp only [parseElems]
          rw [skipWs_nl, skipWs_ws2, skipWs_cons_not (by decide)]
          rfl
        | cons y ys =>
          simp only [sizeL] at hsz
          have hy : sizeJ y ≤ f := by
            have := sizeJ_pos y
            omega
          have hys : sizeL ys < f := by
            have := sizeJ_pos y
            omega
          simp only [prettyArrTail, List.cons_append, List.append_assoc, List.nil_append]
          simp only [parseElems]
          rw [skipWs_cons_not (by decide)]
          simp only [if_neg (by decide : ¬(',' : Char) = ']'), if_pos (rfl : (',' : Char) = ',')]
          rw [@parseVal_skip_congr
              ('\n' :: (ws2 ind ++ (prettyVal ind y ++ (prettyArrTail ind ys
                ++ '\n' :: (ws2 jnd ++ ']' :: rest)))))
              (prettyVal ind y ++ (prettyArrTail ind ys ++ '\n' :: (ws2 jnd ++ ']' :: rest)))
              (by rw [skipWs_nl, skipWs_ws2]) f,
            (ih f (by omega)).1 y ind (prettyArrTail ind ys ++ '\n' :: (ws2 jnd ++ ']' :: rest))
              hy (restOk_arrTail _ _ _)]
          simp only [if_true]
          rw [(ih f (by omega)).2.1 ys ind jnd rest hys]
    · intro fs ind jnd rest hsz
      cases fuel with
      | zero => omega
      | succ f =>
        cases fs with
        | nil =>
          simp only [prettyObjTail, List.nil_append]
          simp only [parseFields]
          rw [skipWs_nl, skipWs_ws2, skipWs_cons_not (by decide)]
          rfl
        | cons k v gs =>
          simp only [sizeF] at hsz
          have hv : sizeJ v ≤ f := by
            have := sizeJ_pos v
            omega
          have hgs : sizeF gs < f := by
            have := sizeJ_pos v
            omega
          simp only [prettyObjTail, quoteChars, List.cons_append, List.append_assoc,
            List.nil_append, List.singleton_append]
          simp only [parseFields]
          rw [skipWs_cons_not (by decide)]
          simp only [if_neg (by decide : ¬(',' : Char) = '\x7d'),
            if_pos (rfl : (',' : Char) = ',')]
          rw [skipWs_nl, skipWs_ws2, skipWs_cons_not (by decide)]
          simp only [if_pos (rfl : ('"' : Char) = '"'), parseStr_escChars]
          rw [skipWs_cons_not (by decide)]
          simp only [if_pos (rfl : (':' : Char) = ':')]
          rw [parseVal_skip_congr (skipWs_cons_ws (by decide) _) f,
            (ih f (by omega)).1 v ind (prettyObjTail ind gs ++ '\n' :: (ws2 jnd ++ '\x7d' :: rest))
              hv (restOk_objTail _ _ _)]
          simp only [if_true]
          rw [(ih f (by omega)).2.2 gs ind jnd rest hgs]

end LH

namespace LH

/-- The printed form has at least one character per node, so the
input-length-based fuel in `parseJson` always suffices. -/
theorem sizeLenAll : ∀ n : Nat,
    (∀ (v : Json) (ind : Nat), sizeJ v ≤ n → sizeJ v ≤ (prettyVal ind v).length) ∧
    (∀ (xs : JsonList) (ind : Nat), sizeL xs ≤ n → sizeL xs ≤ (prettyArrTail ind xs).length) ∧
    (∀ (fs : JsonFields) (ind : Nat), sizeF fs ≤ n → sizeF fs ≤ (prettyObjTail ind fs).length) := by
  intro n
  induction n using Nat.strong_induction_on with
  | _ n ih =>
    refine ⟨?_, ?_, ?_⟩
    · intro v ind hsz
      cases v with
      | null => simp [prettyVal, sizeJ]
      | bool b => cases b <;> simp [prettyVal, sizeJ]
      | num m =>
        have h1 : 1 ≤ (intChars m).length := by
          by_cases hm : m < 0
          · simp [intChars, hm]
          · obtain ⟨c, t, hct, _⟩ := natChars_head m.natAbs
            simp [intChars, hm, hct]
        simpa [prettyVal, sizeJ] using h1
      | str s => simp [prettyVal, sizeJ, quoteChars]
      | arr xs =>
        cases xs with
        | nil => simp [prettyVal, sizeJ, sizeL]
        | cons x t =>
          have hszx : sizeJ x ≤ n := by
            simp only [sizeJ, sizeL] at hsz ⊢
            omega
          have hszt : sizeL t ≤ n := by
            simp only [sizeJ, sizeL] at hsz ⊢
            have := sizeJ_pos x
            omega
          have hn1 : 1 ≤ n := by
            simp only [sizeJ, sizeL] at hsz
            omega
          have hx := (ih (sizeJ x) (by
            simp only [sizeJ, sizeL] at hsz
            have := sizeJ_pos x
            omega)).1 x (ind + 1) (le_refl _)
          have ht := (ih (sizeL t + 1) (by
            simp only [sizeJ, sizeL] at hsz
            have := sizeJ_pos x
            omega)).2.1 t (ind + 1) (by omega)
          simp only [sizeJ, sizeL, prettyVal, List.length_cons, List.length_append]
          omega
      | obj fs =>
        cases fs with
        | nil => simp [prettyVal, sizeJ, sizeF]
        | cons k v t =>
          have hv := (ih (sizeJ v) (by
            simp only [sizeJ, sizeF] at hsz
            have := sizeJ_pos v
            omega)).1 v (ind + 1) (le_refl _)
          have ht := (ih (sizeF t + 1) (by
            simp only [sizeJ, sizeF] at hsz
            have := sizeJ_pos v
            omega)).2.2 t (ind + 1) (by omega)
          simp only [sizeJ, sizeF, prettyVal, List.length_cons, List.length_append]
          omega
    · intro xs ind hsz
      cases xs with
      | nil => simp [prettyArrTail, sizeL]
      | cons x t =>
        have hx := (ih (sizeJ x) (by
          simp only [sizeL] at hsz
          have := sizeJ_pos x
          omega)).1 x ind (le_refl _)
        have ht := (ih (sizeL t + 1) (by
          simp only [sizeL] at hsz
          have := sizeJ_pos x
          omega)).2.1 t ind (by omega)
        simp only [sizeL, prettyArrTail, List.length_cons, List.length_append]
        omega
    · intro fs ind hsz
      cases fs with
      | nil => simp [prettyObjTail, sizeF]
      | cons k v t =>
        have hv := (ih (sizeJ v) (by
          simp only [sizeF] at hsz
          have := sizeJ_pos v
          omega)).1 v ind (le_refl _)
        have ht := (ih (sizeF t + 1) (by
          simp only [sizeF] at hsz
          have := sizeJ_pos v
          omega)).2.2 t ind (by omega)
        simp only [sizeF, prettyObjTail, quoteChars, List.length_cons, List.length_append]
        omega

/-- JSON codec round-trip: saving a report with `JSON.stringify(·, null, 2)`
and loading it back with `JSON.parse` recovers the value exactly. -/
theorem parseJson_stringifyJson (v : Json) : parseJson (stringifyJson v) = some v := by
  have hlen : sizeJ v ≤ (prettyVal 0 v).length :=
    (sizeLenAll (sizeJ v)).1 v 0 (le_refl _)
  have hrt := (rtAll ((prettyVal 0 v).length + 1)).1 v 0 [] (by omega) rfl
  rw [List.append_nil] at hrt
  unfold parseJson stringifyJson
  simp only [hrt]
  rfl

end LH

/-! ### Paths

`dist/index.js` builds every file path with Node's `path.join`:
`reportsDir = join(process.cwd(), 'reports')` (line 11), the save path
`join(reportsDir, 'lighthouse-report-<ts>.json')` (line 163) and the read
path `join(reportsDir, req.params.filename)` (line 528).  `pathJoin` models
`path.join` on absolute POSIX paths: concatenate, split on `/`, drop empty
and `.` segments, resolve `..` by popping (a `..` above the root is
dropped), and rejoin.  The working directory is modelled as `/app`. -/

namespace LH

/-- Split a character list on a separator (used on `/`). -/
def splitOnChar (sep : Char) : List Char → List (List Char)
  | [] => [[]]
  | c :: cs =>
    match splitOnChar sep cs with
    | [] => [[c]]
    | s :: rest => if c = sep then [] :: s :: rest else (c :: s) :: rest

/-- Resolve `.`, `..` and empty segments, stack-style (`acc` is reversed). -/
def normSegsAux : List (List Char) → List (List Char) → List (List Char)
  | acc, [] => acc.reverse
  | acc, seg :: rest =>
    if seg = [] ∨ seg = ['.'] then normSegsAux acc rest
    else if seg = ['.', '.'] then normSegsAux (acc.drop 1) rest
    else normSegsAux (seg :: acc) rest

/-- Rejoin segments with `/`. -/
def joinSegs : List (List Char) → List Char
  | [] => []
  | [s] => s
  | s :: rest => s ++ '/' :: joinSegs rest

/-- Normalise an absolute POSIX path. -/
def normalizeAbs (p : List Char) : List Char :=
  '/' :: joinSegs (normSegsAux [] (splitOnChar '/' p))

/-- Node `path.join(a, b)` for an absolute `a`. -/
def pathJoin (a b : String) : String := ⟨normalizeAbs (a.data ++ '/' :: b.data)⟩

/-- Model of `join(process.cwd(), 'reports')` with the working directory `/app`. -/
def reportsDir : String := pathJoin "/app" "reports"

example : reportsDir = "/app/reports" := by rfl

example : pathJoin reportsDir "lighthouse-report-x.json"
    = "/app/reports/lighthouse-report-x.json" := by rfl

example : pathJoin reportsDir "../secret.json" = "/app/secret.json" := by rfl

/-! ### The decodeURIComponent builtin

The handler calls `decodeURIComponent(url.toString())` on line 51 inside the
outer `try`; a malformed percent sequence makes the builtin throw
`URIError: URI malformed`, which the outer `catch` turns into an HTTP 500.
`decodeURIComponentAscii` is an executable model of the builtin restricted
to ASCII output: `%XY` with hex digits and value < 0x80 decodes to that
character, a `%` not followed by two hex digits (or starting a multi-byte
UTF-8 sequence, which this model does not attempt to decode) throws, i.e.
returns `none`.  The handler model itself keeps the decoder abstract; this
concrete model is only used to evaluate concrete requests such as `url=%`. -/

/-- Percent-decode an ASCII character list; `none` models a `URIError`. -/
def percentDecodeChars : List Char → Option (List Char)
  | [] => some []
  | c :: cs =>
    if c = '%' then
      match cs with
      | a :: b :: cs' =>
        match hexValCh a, hexValCh b with
        | some ha, some hb =>
          if 16 * ha + hb < 128 then
            match percentDecodeChars cs' with
            | some l => some (Char.ofNat (16 * ha + hb) :: l)
            | none => none
          else none
        | _, _ => none
      | _ => none
    else
      match percentDecodeChars cs with
      | some l => some (c :: l)
      | none => none

/-- The model of the `decodeURIComponent` builtin (ASCII fragment). -/
def decodeURIComponentAscii (s : String) : Option String :=
  match percentDecodeChars s.data with
  | some l => some ⟨l⟩
  | none => none

example : decodeURIComponentAscii "%" = none := by rfl

example : decodeURIComponentAscii "https%3A%2F%2Fexample.com" = some "https://example.com" := by
  rfl

end LH

/-! ### The nsa-audit handler

`GET /nsa-audit` (lines 40-216 of `dist/index.js`) is modelled as a pure
function of an `AuditOracle`: one request is one assignment of outcomes to
the external calls the handler makes.  The returned `HandlerOutcome` records
the HTTP response together with the externally observable effects the claims
are about: how many times the browser launcher was invoked, how many times
`chrome.kill()` was invoked, and which files were written.

Modelling notes, tied to the source:
* `chrome.kill()` happens in the `finally` block (lines 197-206); its own
  error is caught there and only logged, so the outcome of the handler does
  not depend on `killResult` at all — `killResult` is carried in the oracle
  precisely so this independence is a provable statement rather than an
  assumption.
* The `details` field of the two 500 bodies is `JSON.stringify(error,
  Object.getOwnPropertyNames(error))` (line 193) resp. `error.stack`
  (line 213); both are strings derived from the error object and are
  modelled by the error's message (the spec constrains only its presence
  and type).
* `new Date().toISOString()` is called twice (lines 162 and 181); the
  oracle carries both values. -/

namespace LH

/-- A thrown JS error, carrying its message. -/
structure JsError where
  message : String

/-- The resolved value of `lighthouse(...)` when it is not null-ish:
its `lhr` property (any JS value; `Json.null` also models an absent one). -/
structure RunnerResult where
  lhr : Json

/-- An HTTP response: status code and JSON body. -/
structure HttpResponse where
  status : Nat
  body : Json

/-- Outcomes of the external calls one `/nsa-audit` request makes.
`urlParam` is the `url` query parameter; `none` models a falsy one —
missing, or the empty string — matching the `if (!url)` test on line 46
(JS strings are falsy exactly when empty). -/
structure AuditOracle where
  urlParam : Option String
  localeParam : Option String
  nowIso : String
  nowIso2 : String
  launchResult : Except JsError Unit
  lighthouseResult : Except JsError (Option RunnerResult)
  writeResult : Except JsError Unit
  killResult : Except JsError Unit

/-- The response plus the externally observable effects of one request. -/
structure HandlerOutcome where
  response : HttpResponse
  launchCalls : Nat
  killCalls : Nat
  writes : List (String × String)

/-- Body shape of the two 400 responses (lines 47-49 and 57-59): note there
is no `success` field. -/
def errBody (msg : String) : Json := .obj (.cons "error" (.str msg) .nil)

/-- Body shape of the 500 responses of both catch blocks (lines 190-194 and
210-214). -/
def failBody (e : JsError) : Json :=
  .obj (.cons "success" (.bool false)
    (.cons "error" (.str e.message)
    (.cons "details" (.str e.message) .nil)))

def urlRequiredMsg : String :=
  "URL is required as a query parameter. Example: /nsa-audit?url=https://example.com"

def invalidUrlMsg : String :=
  "Invalid URL format. Please provide a valid URL starting with http:// or https://"

/-- Model of `new Date().toISOString().replace(/[:.]/g, '-')` (line 162): the global
replace of `:` and `.` by `-`. -/
def sanitizeTs (s : String) : String :=
  ⟨s.data.map (fun c => if c = ':' ∨ c = '.' then '-' else c)⟩

/-- Model of `req.query.locale || 'en'` (line 43): JS falsy-or, so an absent or empty
locale becomes `"en"`. -/
def resolveLocale : Option String → String
  | none => "en"
  | some l => if l = "" then "en" else l

/-- The filename `lighthouse-report-<timestamp>.json` of line 163. -/
def reportFileName (nowIso : String) : String :=
  "lighthouse-report-" ++ sanitizeTs nowIso ++ ".json"

/-- The required-property list of line 147. -/
def requiredProperties : List String := ["finalUrl", "fetchTime", "categories", "audits"]

/-- The validation loop of lines 148-153: the first required property `p`
with `!results.lhr[p]` truthy-false, if any. -/
def firstMissingProp (lhr : Json) : Option String :=
  requiredProperties.find? (fun p => !(truthyOpt (getField lhr p)))

/-- The 200 body of lines 178-185. -/
def successBody (decodedUrl : String) (o : AuditOracle) (lhr : Json) : Json :=
  .obj (.cons "success" (.bool true)
    (.cons "url" (.str decodedUrl)
    (.cons "timestamp" (.str o.nowIso2)
    (.cons "locale" (.str (resolveLocale o.localeParam))
    (.cons "lighthouseResult" lhr
    (.cons "reportPath" (.str ("/reports/" ++ reportFileName o.nowIso)) .nil))))))

/-- The inner `try`/`catch` (lines 131-196): run lighthouse, validate the
result shape, persist, and map every thrown error to a 500 with
`success: false`.  Returns the response and the writes performed.  The
infallible stateful steps — the 10-second settle sleep (line 133), the
`console.log`s, and the `existsSync`/`mkdirSync` re-provisioning (lines
165-167) — have no observable effect in this model and are elided. -/
def innerAudit (decodedUrl : String) (o : AuditOracle) :
    HttpResponse × List (String × String) :=
  match o.lighthouseResult with
  | .error e => (⟨500, failBody e⟩, [])
  | .ok none => (⟨500, failBody ⟨"Lighthouse returned null results object"⟩⟩, [])
  | .ok (some results) =>
    if results.lhr.truthy = false then
      (⟨500, failBody ⟨"Lighthouse results missing lhr property"⟩⟩, [])
    else
      match firstMissingProp results.lhr with
      | some p =>
        (⟨500, failBody ⟨"Lighthouse results missing required property: " ++ p⟩⟩, [])
      | none =>
        match o.writeResult with
        | .error we =>
          (⟨500, failBody ⟨"Failed to save report: " ++ we.message⟩⟩, [])
        | .ok _ =>
          (⟨200, successBody decodedUrl o results.lhr⟩,
            [(pathJoin reportsDir (reportFileName o.nowIso), stringifyJson results.lhr)])

/-- The whole `GET /nsa-audit` handler (lines 40-216).  `decode` is the
`decodeURIComponent` builtin, `urlParses` is `new URL(·)` succeeding; both
are parameters because they are JS builtins, not repository code.  The
steps mirror the source: missing `url` → 400; `decodeURIComponent` throw →
outer catch → 500; `new URL` throw → 400; `launch` reject → outer catch →
500 with no `finally` (the inner `try` was never entered, so no kill);
otherwise the inner audit runs and the `finally` kills Chrome exactly once,
whatever `killResult` is. -/
def nsaAuditHandler (decode : String → Option String) (urlParses : String → Bool)
    (o : AuditOracle) : HandlerOutcome :=
  match o.urlParam with
  | none => ⟨⟨400, errBody urlRequiredMsg⟩, 0, 0, []⟩
  | some url =>
    match decode url with
    | none => ⟨⟨500, failBody ⟨"URI malformed"⟩⟩, 0, 0, []⟩
    | some decodedUrl =>
      if urlParses decodedUrl = false then ⟨⟨400, errBody invalidUrlMsg⟩, 0, 0, []⟩
      else
        match o.launchResult with
        | .error e => ⟨⟨500, failBody e⟩, 1, 0, []⟩
        | .ok _ =>
          let inner := innerAudit decodedUrl o
          ⟨inner.1, 1, 1, inner.2⟩

end LH

/-! ### The report store endpoints

`GET /reports` (lines 502-524) lists the store; `GET /reports/:filename`
(lines 526-542) retrieves one report.  The file system is modelled as a
partial map from (normalised) paths to file contents; `existsSync` is
`(fs path).isSome` and `readFileSync` is the stored string. -/

namespace LH

/-- Model of `s.split('-').pop()`: everything after the last `-` (the whole string
when there is no `-`, the empty string after a trailing `-`). -/
def lastDashSegment (s : List Char) : List Char :=
  (s.reverse.takeWhile (fun c => c ≠ '-')).reverse

/-- Try to strip `pat` from the front of the input. -/
def stripAt : List Char → List Char → Option (List Char)
  | [], s => some s
  | _ :: _, [] => none
  | p :: ps, c :: cs => if c = p then stripAt ps cs else none

/-- JS `String.prototype.replace(pat, '')` with a string pattern: remove the
first occurrence of `pat`, leave everything else. -/
def replFirst (pat : List Char) : List Char → List Char
  | [] => []
  | c :: cs =>
    match stripAt pat (c :: cs) with
    | some r => r
    | none => c :: replFirst pat cs

/-- The sort key of the comparator at lines 513-514:
`file.split('-').pop()?.replace('.json', '') || ''`.  For the files the
server writes, `lighthouse-report-<date>T<h>-<m>-<s>-<ms>Z.json`, this is
only the `<ms>Z` segment — the milliseconds — not the whole timestamp. -/
def sortKeyOf (file : String) : List Char :=
  replFirst ".json".data (lastDashSegment file.data)

/-- Model of `file.endsWith('.json')` (line 510). -/
def endsWithJson (f : String) : Bool := ".json".data.isSuffixOf f.data

/-- Code-point comparison of character lists.  `localeCompare` under the
root locale agrees with code-point order on the ASCII alphanumerics these
keys consist of. -/
def charListLt : List Char → List Char → Bool
  | [], [] => false
  | [], _ :: _ => true
  | _ :: _, [] => false
  | a :: as, b :: bs =>
    if a.toNat < b.toNat then true
    else if b.toNat < a.toNat then false
    else charListLt as bs

/-- Stable insertion for the descending-by-key order the comparator
`(a, b) => timeB.localeCompare(timeA)` induces. -/
def insertDesc (x : String) : List String → List String
  | [] => [x]
  | y :: ys =>
    if charListLt (sortKeyOf x) (sortKeyOf y) then y :: insertDesc x ys
    else x :: y :: ys

/-- Stable sort, descending by `sortKeyOf` (ECMA-262 `Array.prototype.sort`
is stable, and a stable sort is determined by the comparator). -/
def sortDescByKey : List String → List String
  | [] => []
  | x :: xs => insertDesc x (sortDescByKey xs)

/-- The `GET /reports` handler body (lines 509-518): filter directory
entries to `.json` files and sort with the millisecond-segment comparator.
The directory listing order is the argument. -/
def listReports (files : List String) : List String :=
  sortDescByKey (files.filter (fun f => endsWithJson f))

/-- The `GET /reports/:filename` handler (lines 526-542): join the
caller-supplied filename onto the reports directory with no containment
check, 404 `Report not found` when the file does not exist, 500
`Failed to read report` when its content does not parse as JSON, otherwise
the parsed report. -/
def getReportHandler (fs : String → Option String) (filename : String) : HttpResponse :=
  match fs (pathJoin reportsDir filename) with
  | none => ⟨404, errBody "Report not found"⟩
  | some content =>
    match parseJson content with
    | none => ⟨500, errBody "Failed to read report"⟩
    | some j => ⟨200, j⟩

end LH

/-! ### The claims -/

namespace LH

/-- Replace only the kill outcome of an oracle (used to state that the
response never depends on it). -/
def setKill (o : AuditOracle) (k : Except JsError Unit) : AuditOracle :=
  ⟨o.urlParam, o.localeParam, o.nowIso, o.nowIso2, o.launchResult,
    o.lighthouseResult, o.writeResult, k⟩

/-- C1: for every `/nsa-audit` request that reaches browser launch (the url
was present, decoded and parsed, and the launch succeeded), `chrome.kill()`
is invoked exactly once before the handler returns, on every exit path of
the inner audit — and the outcome of the request (response and all effects)
is entirely independent of whether the kill itself fails, because the
`finally` block catches and only logs the kill error. -/
theorem c1_session_released_once (decode : String → Option String)
    (urlParses : String → Bool) (o : AuditOracle) {u du : String}
    (hu : o.urlParam = some u) (hd : decode u = some du) (hp : urlParses du = true)
    (hl : o.launchResult = .ok ()) :
    (nsaAuditHandler decode urlParses o).killCalls = 1 ∧
    ∀ k : Except JsError Unit,
      nsaAuditHandler decode urlParses (setKill o k) = nsaAuditHandler decode urlParses o := by
  constructor
  · simp only [nsaAuditHandler, hu, hd, hp, hl]
    rfl
  · intro k
    rfl

/-- C1 witness: a concrete request (scoring engine resolves null, the kill
itself fails) still kills exactly once and the failing kill changes
nothing. -/
def oC1 : AuditOracle :=
  ⟨some "https://example.com", none, "2024-01-01T00:00:00.000Z",
    "2024-01-01T00:00:10.000Z", .ok (), .ok none, .ok (), .error ⟨"kill failed"⟩⟩

theorem c1_witness :
    (nsaAuditHandler decodeURIComponentAscii (fun _ => true) oC1).killCalls = 1 ∧
    ∀ k : Except JsError Unit,
      nsaAuditHandler decodeURIComponentAscii (fun _ => true) (setKill oC1 k)
        = nsaAuditHandler decodeURIComponentAscii (fun _ => true) oC1 :=
  c1_session_released_once decodeURIComponentAscii (fun _ => true) oC1 rfl rfl rfl rfl

/-- C2: the `GET /reports` comparator keys on `split('-').pop()`, which for
the server's own filenames is only the millisecond segment `<ms>Z` of the
timestamp, so chronological order is not respected across seconds, minutes
or dates.  Three reports saved at t1 < t2 < t3 (January, March, June) whose
millisecond fields happen to decrease come back `[t1, t2, t3]` — oldest
first, in both directory orders — where the claim requires `[t3, t2, t1]`.
The empty store does list as `[]`. -/
theorem c2_list_order_bug :
    listReports ["lighthouse-report-2024-01-01T00-00-00-500Z.json",
        "lighthouse-report-2024-03-01T00-00-00-300Z.json",
        "lighthouse-report-2024-06-01T00-00-00-100Z.json"]
      = ["lighthouse-report-2024-01-01T00-00-00-500Z.json",
        "lighthouse-report-2024-03-01T00-00-00-300Z.json",
        "lighthouse-report-2024-06-01T00-00-00-100Z.json"] ∧
    listReports ["lighthouse-report-2024-06-01T00-00-00-100Z.json",
        "lighthouse-report-2024-03-01T00-00-00-300Z.json",
        "lighthouse-report-2024-01-01T00-00-00-500Z.json"]
      = ["lighthouse-report-2024-01-01T00-00-00-500Z.json",
        "lighthouse-report-2024-03-01T00-00-00-300Z.json",
        "lighthouse-report-2024-06-01T00-00-00-100Z.json"] ∧
    listReports [] = [] := by
  refine ⟨by decide, by decide, rfl⟩

/-- C4 counterexample: the request `GET /nsa-audit?url=%` carries a `url`
that does not parse as a URL (`new URL('%')` throws, hence the `fun _ =>
false`; the choice is irrelevant because the handler never reaches the URL
check), yet the server answers 500, not 400: `decodeURIComponent('%')`
throws `URIError` inside the outer `try` before the `new URL` validation.
No browser is launched. -/
def oC4 : AuditOracle :=
  ⟨some "%", none, "2024-01-01T00:00:00.000Z", "2024-01-01T00:00:10.000Z",
    .ok (), .ok none, .ok (), .ok ()⟩

theorem c4_counterexample :
    (nsaAuditHandler decodeURIComponentAscii (fun _ => false) oC4).response.status = 500 ∧
    ¬(nsaAuditHandler decodeURIComponentAscii (fun _ => false) oC4).response.status = 400 ∧
    (nsaAuditHandler decodeURIComponentAscii (fun _ => false) oC4).launchCalls = 0 :=
  ⟨rfl, by decide, rfl⟩

/-- C4 amended: a missing `url` yields 400, a `url` whose percent-decoding
throws yields 500 (outer catch), and a decoded `url` that fails `new URL`
yields 400 — and on all three paths no browser session is ever launched. -/
theorem c4_amended (decode : String → Option String) (urlParses : String → Bool)
    (o : AuditOracle) :
    (o.urlParam = none →
      (nsaAuditHandler decode urlParses o).response.status = 400 ∧
      (nsaAuditHandler decode urlParses o).launchCalls = 0) ∧
    (∀ u, o.urlParam = some u → decode u = none →
      (nsaAuditHandler decode urlParses o).response.status = 500 ∧
      (nsaAuditHandler decode urlParses o).launchCalls = 0) ∧
    (∀ u du, o.urlParam = some u → decode u = some du → urlParses du = false →
      (nsaAuditHandler decode urlParses o).response.status = 400 ∧
      (nsaAuditHandler decode urlParses o).launchCalls = 0) := by
  refine ⟨fun hu => ?_, fun u hu hd => ?_, fun u du hu hd hp => ?_⟩
  · simp [nsaAuditHandler, hu]
  · simp [nsaAuditHandler, hu, hd]
  · simp [nsaAuditHandler, hu, hd, hp]

/-- C4 witness: the three branches of the amended claim at concrete
requests: no url; `url=%` (decode throws); `url=not-a-url` (URL parse
fails, `new URL('not-a-url')` throws). -/
def oC4b : AuditOracle :=
  ⟨none, none, "2024-01-01T00:00:00.000Z", "2024-01-01T00:00:10.000Z",
    .ok (), .ok none, .ok (), .ok ()⟩

def oC4c : AuditOracle :=
  ⟨some "not-a-url", none, "2024-01-01T00:00:00.000Z", "2024-01-01T00:00:10.000Z",
    .ok (), .ok none, .ok (), .ok ()⟩

theorem c4_witness :
    ((nsaAuditHandler decodeURIComponentAscii (fun _ => false) oC4b).response.status = 400 ∧
      (nsaAuditHandler decodeURIComponentAscii (fun _ => false) oC4b).launchCalls = 0) ∧
    ((nsaAuditHandler decodeURIComponentAscii (fun _ => false) oC4).response.status = 500 ∧
      (nsaAuditHandler decodeURIComponentAscii (fun _ => false) oC4).launchCalls = 0) ∧
    ((nsaAuditHandler decodeURIComponentAscii (fun _ => false) oC4c).response.status = 400 ∧
      (nsaAuditHandler decodeURIComponentAscii (fun _ => false) oC4c).launchCalls = 0) :=
  ⟨(c4_amended decodeURIComponentAscii (fun _ => false) oC4b).1 rfl,
    (c4_amended decodeURIComponentAscii (fun _ => false) oC4).2.1 "%" rfl rfl,
    (c4_amended decodeURIComponentAscii (fun _ => false) oC4c).2.2 "not-a-url" "not-a-url"
      rfl rfl rfl⟩

/-- C7: `GET /reports/:id` distinguishes its two failure modes: a missing
file is 404 with body exactly `\x7berror: "Report not found"\x7d`, and an
existing file whose content `JSON.parse` rejects is 500 — never a crash,
never an empty success. -/
theorem c7_get_failure_modes (fs : String → Option String) (filename : String) :
    (fs (pathJoin reportsDir filename) = none →
      getReportHandler fs filename = ⟨404, errBody "Report not found"⟩) ∧
    (∀ content, fs (pathJoin reportsDir filename) = some content →
      parseJson content = none →
      getReportHandler fs filename = ⟨500, errBody "Failed to read report"⟩) := by
  refine ⟨fun habs => ?_, fun content hc hbad => ?_⟩
  · simp [getReportHandler, habs]
  · simp [getReportHandler, hc, hbad]

/-- C7 witness: an empty store 404s, and a store holding unparseable bytes
at the requested identity 500s. -/
def corruptFs : String → Option String :=
  fun p => if p = "/app/reports/x.json" then some "not json" else none

theorem c7_witness :
    getReportHandler (fun _ => none) "x.json" = ⟨404, errBody "Report not found"⟩ ∧
    getReportHandler corruptFs "x.json" = ⟨500, errBody "Failed to read report"⟩ :=
  ⟨(c7_get_failure_modes (fun _ => none) "x.json").1 rfl,
    (c7_get_failure_modes corruptFs "x.json").2 "not json" rfl rfl⟩

/-- C10: `GET /reports/:filename` joins the caller-supplied identity onto
the reports directory with no containment check, so the identity
`../secret.json` (reachable over HTTP as `..%2Fsecret.json`) makes the
handler read and return `/app/secret.json` — a JSON file outside the
reports directory — with status 200 instead of failing with 404. -/
def secretFs : String → Option String :=
  fun p => if p = "/app/secret.json" then some "\x7b\x7d" else none

theorem c10_path_traversal :
    getReportHandler secretFs "../secret.json" = ⟨200, .obj .nil⟩ ∧
    secretFs (pathJoin reportsDir "../secret.json") = some "\x7b\x7d" ∧
    List.isPrefixOf "/app/reports/".data "/app/secret.json".data = false :=
  ⟨rfl, rfl, by decide⟩

end LH

namespace LH

/-- C3 counterexample: the missing-`url` failure response is HTTP 400 with
body `\x7berror: ...\x7d` and no `success` field at all, contradicting the
claim that every failure body contains `success: false`. -/
def oC3 : AuditOracle :=
  ⟨none, none, "2024-01-01T00:00:00.000Z", "2024-01-01T00:00:10.000Z",
    .ok (), .ok none, .ok (), .ok ()⟩

theorem c3_counterexample :
    (nsaAuditHandler decodeURIComponentAscii (fun _ => true) oC3).response.status = 400 ∧
    getField (nsaAuditHandler decodeURIComponentAscii (fun _ => true) oC3).response.body
      "success" = none ∧
    getField (nsaAuditHandler decodeURIComponentAscii (fun _ => true) oC3).response.body
      "error" = some (.str urlRequiredMsg) :=
  ⟨rfl, rfl, rfl⟩

/-- C3 amended: failing `/nsa-audit` responses are 400 for bad input with
body `\x7berror: string\x7d` — no `success` field — and 500 for
launch/scoring/persistence failures with body `\x7bsuccess: false, error:
string, details: string\x7d`. -/
theorem c3_amended (decode : String → Option String) (urlParses : String → Bool)
    (o : AuditOracle) :
    ((nsaAuditHandler decode urlParses o).response.status = 400 →
      getField (nsaAuditHandler decode urlParses o).response.body "success" = none ∧
      ∃ m, (nsaAuditHandler decode urlParses o).response.body = errBody m) ∧
    ((nsaAuditHandler decode urlParses o).response.status = 500 →
      getField (nsaAuditHandler decode urlParses o).response.body "success"
          = some (.bool false) ∧
      (∃ m, getField (nsaAuditHandler decode urlParses o).response.body "error"
          = some (.str m)) ∧
      (∃ d, getField (nsaAuditHandler decode urlParses o).response.body "details"
          = some (.str d))) := by
  unfold nsaAuditHandler innerAudit
  repeat' split
  all_goals refine ⟨fun h400 => ?_, fun h500 => ?_⟩
  all_goals first
    | (simp only [] at h400
       simp at h400
       done)
    | (simp at h500
       done)
    | exact ⟨rfl, _, rfl⟩
    | exact ⟨rfl, ⟨_, rfl⟩, _, rfl⟩

/-- C3 witness: the amended claim evaluated at two concrete failures — the
400 of a missing url and the 500 of a launch failure. -/
def oC3b : AuditOracle :=
  ⟨some "https://example.com", none, "2024-01-01T00:00:00.000Z",
    "2024-01-01T00:00:10.000Z", .error ⟨"spawn chrome ENOENT"⟩, .ok none, .ok (), .ok ()⟩

theorem c3_witness :
    (getField (nsaAuditHandler decodeURIComponentAscii (fun _ => true) oC3).response.body
        "success" = none ∧
      ∃ m, (nsaAuditHandler decodeURIComponentAscii (fun _ => true) oC3).response.body
        = errBody m) ∧
    (getField (nsaAuditHandler decodeURIComponentAscii (fun _ => true) oC3b).response.body
        "success" = some (.bool false) ∧
      (∃ m, getField (nsaAuditHandler decodeURIComponentAscii (fun _ => true) oC3b).response.body
        "error" = some (.str m)) ∧
      (∃ d, getField (nsaAuditHandler decodeURIComponentAscii (fun _ => true) oC3b).response.body
        "details" = some (.str d))) :=
  ⟨(c3_amended decodeURIComponentAscii (fun _ => true) oC3).1 rfl,
    (c3_amended decodeURIComponentAscii (fun _ => true) oC3b).2 rfl⟩

end LH

namespace LH

/-- C5: when lighthouse resolves null, resolves a result without a truthy
`lhr`, or resolves an `lhr` with any required field missing (falsy), the
request is classified as a 500 scoring failure, nothing is ever written to
the store, and the session is still killed once. -/
theorem c5_invalid_result_not_persisted (decode : String → Option String)
    (urlParses : String → Bool) (o : AuditOracle) {u du : String}
    (hu : o.urlParam = some u) (hd : decode u = some du) (hp : urlParses du = true)
    (hl : o.launchResult = .ok ())
    (hbad : o.lighthouseResult = .ok none ∨
      (∃ rr, o.lighthouseResult = .ok (some rr) ∧ rr.lhr.truthy = false) ∨
      (∃ rr p, o.lighthouseResult = .ok (some rr) ∧ rr.lhr.truthy = true ∧
        p ∈ requiredProperties ∧ truthyOpt (getField rr.lhr p) = false)) :
    (nsaAuditHandler decode urlParses o).response.status = 500 ∧
    (nsaAuditHandler decode urlParses o).writes = [] ∧
    (nsaAuditHandler decode urlParses o).killCalls = 1 := by
  simp only [nsaAuditHandler, hu, hd, hp, hl]
  rcases hbad with hn | ⟨rr, hr, hfl⟩ | ⟨rr, p, hr, htr, hmem, hfal⟩
  · simp [innerAudit, hn]
  · simp [innerAudit, hr, hfl]
  · have hsome : (firstMissingProp rr.lhr).isSome = true := by
      unfold firstMissingProp
      exact List.find?_isSome.mpr ⟨p, hmem, by simp [hfal]⟩
    obtain ⟨q, hq⟩ := Option.isSome_iff_exists.mp hsome
    simp [innerAudit, hr, htr, hq]

/-- C5 witness: the scoring engine resolving null at a concrete request is a
500 with no file written and one kill. -/
def oC5 : AuditOracle :=
  ⟨some "https://example.com", none, "2024-01-01T00:00:00.000Z",
    "2024-01-01T00:00:10.000Z", .ok (), .ok none, .ok (), .ok ()⟩

theorem c5_witness :
    (nsaAuditHandler decodeURIComponentAscii (fun _ => true) oC5).response.status = 500 ∧
    (nsaAuditHandler decodeURIComponentAscii (fun _ => true) oC5).writes = [] ∧
    (nsaAuditHandler decodeURIComponentAscii (fun _ => true) oC5).killCalls = 1 :=
  c5_invalid_result_not_persisted decodeURIComponentAscii (fun _ => true) oC5
    rfl rfl rfl rfl (Or.inl rfl)

/-- C9: the validation loop tests `!results.lhr[prop]` — falsiness, not
presence — so a required field that is present but falsy (the empty string,
`null`, `0`, `false`) is rejected exactly like an absent one: 500, and
nothing persisted. -/
theorem c9_falsy_required_field (decode : String → Option String)
    (urlParses : String → Bool) (o : AuditOracle) {u du : String} {rr : RunnerResult}
    {p : String} {v : Json}
    (hu : o.urlParam = some u) (hd : decode u = some du) (hp : urlParses du = true)
    (hl : o.launchResult = .ok ())
    (hr : o.lighthouseResult = .ok (some rr)) (htr : rr.lhr.truthy = true)
    (hmem : p ∈ requiredProperties) (hfield : getField rr.lhr p = some v)
    (hfv : v.truthy = false) :
    (nsaAuditHandler decode urlParses o).response.status = 500 ∧
    (nsaAuditHandler decode urlParses o).writes = [] := by
  simp only [nsaAuditHandler, hu, hd, hp, hl]
  have hsome : (firstMissingProp rr.lhr).isSome = true := by
    unfold firstMissingProp
    exact List.find?_isSome.mpr ⟨p, hmem, by simp [truthyOpt, hfield, hfv]⟩
  obtain ⟨q, hq⟩ := Option.isSome_iff_exists.mp hsome
  simp [innerAudit, hr, htr, hq]

/-- C9 witness: a report whose `fetchTime` is present but the empty string
is rejected with 500 and no write. -/
def lhrFalsyFetch : Json :=
  .obj (.cons "finalUrl" (.str "https://example.com/")
    (.cons "fetchTime" (.str "")
    (.cons "categories" (.obj .nil)
    (.cons "audits" (.obj .nil) .nil))))

def oC9 : AuditOracle :=
  ⟨some "https://example.com", none, "2024-01-01T00:00:00.000Z",
    "2024-01-01T00:00:10.000Z", .ok (), .ok (some ⟨lhrFalsyFetch⟩), .ok (), .ok ()⟩

theorem c9_witness :
    (nsaAuditHandler decodeURIComponentAscii (fun _ => true) oC9).response.status = 500 ∧
    (nsaAuditHandler decodeURIComponentAscii (fun _ => true) oC9).writes = [] :=
  @c9_falsy_required_field decodeURIComponentAscii (fun _ => true) oC9
    "https://example.com" "https://example.com" ⟨lhrFalsyFetch⟩ "fetchTime" (.str "")
    rfl rfl rfl rfl rfl rfl (by decide) rfl rfl

/-- C8: a validated report whose write to the store fails is a failure
end-to-end: 500 with `success: false`, no file recorded as written, and the
session is still released exactly once. -/
theorem c8_persistence_failure (decode : String → Option String)
    (urlParses : String → Bool) (o : AuditOracle) {u du : String} {lhr : Json}
    {we : JsError}
    (hu : o.urlParam = some u) (hd : decode u = some du) (hp : urlParses du = true)
    (hl : o.launchResult = .ok ())
    (hr : o.lighthouseResult = .ok (some ⟨lhr⟩)) (htr : lhr.truthy = true)
    (hvalid : firstMissingProp lhr = none) (hw : o.writeResult = .error we) :
    (nsaAuditHandler decode urlParses o).response.status = 500 ∧
    getField (nsaAuditHandler decode urlParses o).response.body "success"
      = some (.bool false) ∧
    (nsaAuditHandler decode urlParses o).writes = [] ∧
    (nsaAuditHandler decode urlParses o).killCalls = 1 := by
  simp only [nsaAuditHandler, hu, hd, hp, hl]
  simp [innerAudit, hr, htr, hvalid, hw, getField, findField, failBody]

/-- C8 witness: a concrete valid report whose `writeFileSync` throws. -/
def lhrValid : Json :=
  .obj (.cons "finalUrl" (.str "https://example.com/")
    (.cons "fetchTime" (.str "2024-01-01T00:00:05.123Z")
    (.cons "categories" (.obj (.cons "performance" (.obj (.cons "score" (.num 1) .nil)) .nil))
    (.cons "audits" (.obj (.cons "speed-index" (.obj .nil) .nil)) .nil))))

def oC8 : AuditOracle :=
  ⟨some "https://example.com", none, "2024-01-01T00:00:00.000Z",
    "2024-01-01T00:00:10.000Z", .ok (), .ok (some ⟨lhrValid⟩), .error ⟨"ENOSPC"⟩, .ok ()⟩

theorem c8_witness :
    (nsaAuditHandler decodeURIComponentAscii (fun _ => true) oC8).response.status = 500 ∧
    getField (nsaAuditHandler decodeURIComponentAscii (fun _ => true) oC8).response.body
      "success" = some (.bool false) ∧
    (nsaAuditHandler decodeURIComponentAscii (fun _ => true) oC8).writes = [] ∧
    (nsaAuditHandler decodeURIComponentAscii (fun _ => true) oC8).killCalls = 1 :=
  c8_persistence_failure decodeURIComponentAscii (fun _ => true) oC8
    rfl rfl rfl rfl rfl rfl (by decide) rfl

/-- C6: for every report that passes validation, a successful audit writes
exactly `JSON.stringify(lhr, null, 2)` at the timestamp-derived path, and
`GET /reports/:id` with the identity the audit returned parses that very
content back to the identical report — the store writes the full report
verbatim and retrieval returns it unchanged. -/
theorem c6_save_get_roundtrip (decode : String → Option String)
    (urlParses : String → Bool) (o : AuditOracle) (fs0 : String → Option String)
    {u du : String} {lhr : Json}
    (hu : o.urlParam = some u) (hd : decode u = some du) (hp : urlParses du = true)
    (hl : o.launchResult = .ok ())
    (hr : o.lighthouseResult = .ok (some ⟨lhr⟩)) (htr : lhr.truthy = true)
    (hvalid : firstMissingProp lhr = none) (hw : o.writeResult = .ok ()) :
    (nsaAuditHandler decode urlParses o).response.status = 200 ∧
    (nsaAuditHandler decode urlParses o).writes
      = [(pathJoin reportsDir (reportFileName o.nowIso), stringifyJson lhr)] ∧
    getReportHandler
      (fun q => if q = pathJoin reportsDir (reportFileName o.nowIso)
        then some (stringifyJson lhr) else fs0 q)
      (reportFileName o.nowIso)
      = ⟨200, lhr⟩ := by
  refine ⟨?_, ?_, ?_⟩
  · simp only [nsaAuditHandler, hu, hd, hp, hl]
    simp [innerAudit, hr, htr, hvalid, hw]
  · simp only [nsaAuditHandler, hu, hd, hp, hl]
    simp [innerAudit, hr, htr, hvalid, hw]
  · unfold getReportHandler
    simp only [if_pos, if_true, parseJson_stringifyJson]

/-- C6 witness: a concrete valid report round-trips byte-for-byte through
the store: the audit returns 200, writes the pretty-printed JSON, and the
subsequent `GET /reports/:id` returns the identical value. -/
def oC6 : AuditOracle :=
  ⟨some "https://example.com", none, "2024-01-01T00:00:00.000Z",
    "2024-01-01T00:00:10.000Z", .ok (), .ok (some ⟨lhrValid⟩), .ok (), .ok ()⟩

theorem c6_witness :
    (nsaAuditHandler decodeURIComponentAscii (fun _ => true) oC6).response.status = 200 ∧
    (nsaAuditHandler decodeURIComponentAscii (fun _ => true) oC6).writes
      = [(pathJoin reportsDir (reportFileName oC6.nowIso), stringifyJson lhrValid)] ∧
    getReportHandler
      (fun q => if q = pathJoin reportsDir (reportFileName oC6.nowIso)
        then some (stringifyJson lhrValid) else none)
      (reportFileName oC6.nowIso)
      = ⟨200, lhrValid⟩ :=
  c6_save_get_roundtrip decodeURIComponentAscii (fun _ => true) oC6 (fun _ => none)
    rfl rfl rfl rfl rfl rfl (by decide) rfl

end LH
